import Mathlib

/-
Verification of the go-fq query/filter engine.

Shallow embedding notes:
- Go `interface{}` values handled by the engine are modelled by the inductive
  type `Value`.  Each Go numeric kind keeps its own constructor; integer kinds
  carry `Int`/`Nat` payloads and the floating kinds carry exact rationals, so
  the float64 numeric domain used by `toNumber` is modelled exactly (IEEE-754
  rounding of conversions from integers wider than 2^53 is not modelled; no
  claim in this development depends on such inputs).
- Nil-able Go values (nil pointer, nil slice, nil map, nil func) are modelled
  explicitly: `VPtr none`, and the boolean nil flags on slices, maps and
  function values.  A nil slice and an empty slice are distinct values, as in
  Go.  Function values are opaque apart from their nilness, matching
  `reflect.DeepEqual`, which never equates two non-nil functions.
- Go maps are unordered; map values are kept as association lists in one
  canonical order with unique keys, so `reflect.DeepEqual` on maps is modelled
  by ordered entry comparison.  Pointer identity (`==` on addresses) is
  abstracted to pointee equality; no claim depends on address comparison.
- Panics are modelled with `Except String`: a predicate that can panic is a
  function into `Except String Bool`, and `recover` at the filter boundary
  turns the propagated payload into the returned error value.
- The streaming filter `FilterC` runs exactly one sequential worker goroutine,
  so the sequences delivered on its two channels are modelled as the pair of
  lists produced by that worker in order.
-/

namespace GoFq

/-- Go dynamic values reaching the fq engine (Go `interface{}`). -/
inductive Value where
  | VNil : Value
  | VBool : Bool → Value
  | VInt : Int → Value
  | VInt8 : Int → Value
  | VInt16 : Int → Value
  | VInt32 : Int → Value
  | VInt64 : Int → Value
  | VUInt : Nat → Value
  | VUInt8 : Nat → Value
  | VUInt16 : Nat → Value
  | VUInt32 : Nat → Value
  | VUInt64 : Nat → Value
  | VFloat32 : ℚ → Value
  | VFloat64 : ℚ → Value
  | VString : String → Value
  | VTime : Int → Value
  | VSlice : Bool → List Value → Value
  | VMap : Bool → List (String × Value) → Value
  | VStructV : List (String × Value) → Value
  | VPtr : Option Value → Value
  | VFuncV : Bool → Value

/-- Go `v == nil` on an `interface{}`: a tag check for the nil interface,
not a structural comparison. -/
def isVNil : Value → Bool
  | .VNil => true
  | _ => false

mutual
/-- The Go `==` operator on two `interface{}` values of the same comparable
dynamic type, modelled as structural equality on `Value`.  Pointer identity
is abstracted to pointee equality, and `==` on values whose type is not
comparable (which panics in Go) is abstracted structurally; no claim below
reaches either abstraction. -/
def veq : Value → Value → Bool
  | .VNil, .VNil => true
  | .VBool x, .VBool y => x = y
  | .VInt x, .VInt y => x = y
  | .VInt8 x, .VInt8 y => x = y
  | .VInt16 x, .VInt16 y => x = y
  | .VInt32 x, .VInt32 y => x = y
  | .VInt64 x, .VInt64 y => x = y
  | .VUInt x, .VUInt y => x = y
  | .VUInt8 x, .VUInt8 y => x = y
  | .VUInt16 x, .VUInt16 y => x = y
  | .VUInt32 x, .VUInt32 y => x = y
  | .VUInt64 x, .VUInt64 y => x = y
  | .VFloat32 x, .VFloat32 y => x = y
  | .VFloat64 x, .VFloat64 y => x = y
  | .VString x, .VString y => x = y
  | .VTime x, .VTime y => x = y
  | .VSlice n1 xs, .VSlice n2 ys => n1 = n2 && veqList xs ys
  | .VMap n1 xs, .VMap n2 ys => n1 = n2 && veqEntries xs ys
  | .VStructV xs, .VStructV ys => veqEntries xs ys
  | .VPtr none, .VPtr none => true
  | .VPtr (some x), .VPtr (some y) => veq x y
  | .VFuncV x, .VFuncV y => x = y
  | _, _ => false

/-- Elementwise `veq` on slice elements. -/
def veqList : List Value → List Value → Bool
  | [], [] => true
  | x :: xs, y :: ys => veq x y && veqList xs ys
  | _, _ => false

/-- Entrywise `veq` on map/struct entries. -/
def veqEntries : List (String × Value) → List (String × Value) → Bool
  | [], [] => true
  | (k1, v1) :: xs, (k2, v2) :: ys => k1 = k2 && veq v1 v2 && veqEntries xs ys
  | _, _ => false
end

/-- Go `reflect.Kind`, restricted to the kinds a `Value` can take. -/
inductive Kind where
  | KInvalid | KBool
  | KInt | KInt8 | KInt16 | KInt32 | KInt64
  | KUInt | KUInt8 | KUInt16 | KUInt32 | KUInt64
  | KFloat32 | KFloat64 | KString | KStruct | KSlice | KMap | KPtr | KFunc
  deriving DecidableEq

/-- `reflect.ValueOf(v).Kind()`.  `time.Time` is a struct in Go. -/
def kindOf : Value → Kind
  | .VNil => .KInvalid
  | .VBool _ => .KBool
  | .VInt _ => .KInt
  | .VInt8 _ => .KInt8
  | .VInt16 _ => .KInt16
  | .VInt32 _ => .KInt32
  | .VInt64 _ => .KInt64
  | .VUInt _ => .KUInt
  | .VUInt8 _ => .KUInt8
  | .VUInt16 _ => .KUInt16
  | .VUInt32 _ => .KUInt32
  | .VUInt64 _ => .KUInt64
  | .VFloat32 _ => .KFloat32
  | .VFloat64 _ => .KFloat64
  | .VString _ => .KString
  | .VTime _ => .KStruct
  | .VSlice _ _ => .KSlice
  | .VMap _ _ => .KMap
  | .VStructV _ => .KStruct
  | .VPtr _ => .KPtr
  | .VFuncV _ => .KFunc

/-- `toNumber` from type_utils.go: widens any Go integer or floating kind to
the float64 numeric domain (modelled by exact rationals); does not parse
strings.  Returns the converted number and an ok flag. -/
def toNumber : Value → ℚ × Bool
  | .VInt n => ((n : ℚ), true)
  | .VInt8 n => ((n : ℚ), true)
  | .VInt16 n => ((n : ℚ), true)
  | .VInt32 n => ((n : ℚ), true)
  | .VInt64 n => ((n : ℚ), true)
  | .VUInt n => ((n : ℚ), true)
  | .VUInt8 n => ((n : ℚ), true)
  | .VUInt16 n => ((n : ℚ), true)
  | .VUInt32 n => ((n : ℚ), true)
  | .VUInt64 n => ((n : ℚ), true)
  | .VFloat32 q => (q, true)
  | .VFloat64 q => (q, true)
  | _ => (0, false)

/-- `isUncomparable` from type_utils.go: kinds that Go cannot compare with
the `==` operator. -/
def isUncomparable : Kind → Bool
  | .KSlice => true
  | .KMap => true
  | .KFunc => true
  | _ => false

mutual
/-- `reflect.DeepEqual`, restricted to `Value`.  Values of different dynamic
types are never deeply equal; pointers are dereferenced; two function values
are deeply equal only if both are nil. -/
def deepEqual : Value → Value → Bool
  | .VNil, .VNil => true
  | .VBool x, .VBool y => x = y
  | .VInt x, .VInt y => x = y
  | .VInt8 x, .VInt8 y => x = y
  | .VInt16 x, .VInt16 y => x = y
  | .VInt32 x, .VInt32 y => x = y
  | .VInt64 x, .VInt64 y => x = y
  | .VUInt x, .VUInt y => x = y
  | .VUInt8 x, .VUInt8 y => x = y
  | .VUInt16 x, .VUInt16 y => x = y
  | .VUInt32 x, .VUInt32 y => x = y
  | .VUInt64 x, .VUInt64 y => x = y
  | .VFloat32 x, .VFloat32 y => x = y
  | .VFloat64 x, .VFloat64 y => x = y
  | .VString x, .VString y => x = y
  | .VTime x, .VTime y => x = y
  | .VSlice n1 xs, .VSlice n2 ys => n1 = n2 && deepEqualList xs ys
  | .VMap n1 xs, .VMap n2 ys => n1 = n2 && deepEqualEntries xs ys
  | .VStructV xs, .VStructV ys => deepEqualEntries xs ys
  | .VPtr none, .VPtr none => true
  | .VPtr (some x), .VPtr (some y) => deepEqual x y
  | .VFuncV x, .VFuncV y => x && y
  | _, _ => false

/-- Elementwise `reflect.DeepEqual` on slices. -/
def deepEqualList : List Value → List Value → Bool
  | [], [] => true
  | x :: xs, y :: ys => deepEqual x y && deepEqualList xs ys
  | _, _ => false

/-- Entrywise `reflect.DeepEqual` on canonically ordered map/struct entries. -/
def deepEqualEntries : List (String × Value) → List (String × Value) → Bool
  | [], [] => true
  | (k1, v1) :: xs, (k2, v2) :: ys => k1 = k2 && deepEqual v1 v2 && deepEqualEntries xs ys
  | _, _ => false
end

/-- `isEqual` from type_utils.go: nil check, then numeric normalization, then
`reflect.DeepEqual` for uncomparable kinds, Go `==` for matching kinds, and
`reflect.DeepEqual` as the final fallback. -/
def isEqual (a b : Value) : Bool :=
  if isVNil a || isVNil b then isVNil a && isVNil b
  else
    match toNumber a, toNumber b with
    | (x, true), (y, true) => x = y
    | _, _ =>
      if isUncomparable (kindOf a) || isUncomparable (kindOf b) then deepEqual a b
      else if kindOf a = kindOf b then veq a b
      else deepEqual a b

/-- `compareValues` from type_utils.go: nil sorts first; same-kind fast paths
for int, float64, string and time.Time; otherwise numeric normalization; and
-1 (less) when the values are not mutually orderable. -/
def compareValues (a b : Value) : Int :=
  if isVNil a && isVNil b then 0
  else if isVNil a then -1
  else if isVNil b then 1
  else
    match a, b with
    | .VInt x, .VInt y => if x < y then -1 else if y < x then 1 else 0
    | .VFloat64 x, .VFloat64 y => if x < y then -1 else if y < x then 1 else 0
    | .VString x, .VString y => if x < y then -1 else if y < x then 1 else 0
    | .VTime x, .VTime y => if x < y then -1 else if y < x then 1 else 0
    | a', b' =>
      match toNumber a', toNumber b' with
      | (x, true), (y, true) => if x < y then -1 else if y < x then 1 else 0
      | _, _ => -1

/-- `isNil` from type_utils.go: true for the nil interface and for a value of
pointer, slice, map, interface, chan or func kind whose `IsNil()` holds. -/
def isNil : Value → Bool
  | .VNil => true
  | .VPtr none => true
  | .VSlice nilp _ => nilp
  | .VMap nilp _ => nilp
  | .VFuncV nilp => nilp
  | _ => false

/-- Key lookup in the canonical entry list of a map or struct value, as
performed by `reflect.Value.MapIndex` / `FieldByName` (keys are unique). -/
def lookupEntry : List (String × Value) → String → Option Value
  | [], _ => none
  | (k, v) :: rest, f => if k = f then some v else lookupEntry rest f

/-- The kind switch at the end of `getField`: map key lookup, struct field
lookup, `nil` for any other kind.  A `VTime` value is a struct whose fields
are Go-internal and unreachable by name, so it resolves no field. -/
def fieldOnShape (item : Value) (fieldName : String) : Value :=
  match item with
  | .VMap _ entries =>
    match lookupEntry entries fieldName with
    | some v => v
    | none => .VNil
  | .VStructV fields =>
    match lookupEntry fields fieldName with
    | some v => v
    | none => .VNil
  | _ => .VNil

/-- `getField` from the filter source: nil record resolves to nil, one level
of pointer indirection is stripped (`Elem` of a nil pointer is invalid and of
a pointer-to-pointer still has pointer kind, so both fall to the default
branch), then the kind switch runs. -/
def getField (item : Value) (fieldName : String) : Value :=
  match item with
  | .VNil => .VNil
  | .VPtr none => .VNil
  | .VPtr (some inner) =>
    match inner with
    | .VPtr _ => .VNil
    | x => fieldOnShape x fieldName
  | x => fieldOnShape x fieldName

/-- Error values (`error` results and panic payloads are both rendered as
their message strings). -/
abbrev Err := String

/-- The fq `Query` interface: a nil query, a predicate `P`
(`func(interface{}) bool`, which may panic: panics are modelled by
`Except.error`), a map query `Q` (entries in one canonical order with unique
keys, since Go map iteration order is unspecified), or any other value used
as a literal. -/
inductive Query where
  | qnil : Query
  | pred : (Value → Except Err Bool) → Query
  | qmap : List (String × Query) → Query
  | lit : Value → Query

/-- Go `query == nil`: the nil-interface tag check used by `Filter`. -/
def Query.isNilQuery : Query → Bool
  | .qnil => true
  | _ => false

/-- Resolution of the value a map-query entry is evaluated against: the whole
current item for the reserved empty-string key, else the named field. -/
def resolveField (item : Value) (key : String) : Value :=
  if key = "" then item else getField item key

mutual
/-- `eval` from the filter source: a predicate is applied directly, a map
query is evaluated entrywise, a nil query tests `isNil`, and any other
literal is tested with `isEqual`. -/
def eval : Query → Value → Except Err Bool
  | .pred p, v => p v
  | .qmap m, v => evalMapQuery v m
  | .qnil, v => .ok (isNil v)
  | .lit l, v => .ok (isEqual v l)

/-- `evalMapQuery` from the filter source: each entry is a condition with
implicit AND; the first failing entry stops the scan, and a panic raised by
a sub-predicate propagates. -/
def evalMapQuery (item : Value) : List (String × Query) → Except Err Bool
  | [] => .ok true
  | (key, condition) :: rest =>
    match eval condition (resolveField item key) with
    | .error e => .error e
    | .ok false => .ok false
    | .ok true => evalMapQuery item rest
end

/-- `true` exactly when `eval(query, record)` returns true without a fault. -/
def matchesQ (q : Query) (r : Value) : Bool :=
  match eval q r with
  | .ok true => true
  | _ => false

/-- The scan loop of `Filter`: `count` counts discarded (skipped) matches and
`res` is the accumulated result; a panic during evaluation is recovered at
the `Filter` boundary, producing the wrapped error together with the matches
accumulated so far. -/
def filterLoop (q : Query) (skip limit : Nat) :
    List Value → Nat → List Value → List Value × Option Err
  | [], _, res => (res, none)
  | item :: rest, count, res =>
    match eval q item with
    | .error e => (res, some ("panic during filtering: " ++ e))
    | .ok true =>
      if count < skip then filterLoop q skip limit rest (count + 1) res
      else
        let res' := res ++ [item]
        if 0 < limit ∧ limit ≤ res'.length then (res', none)
        else filterLoop q skip limit rest count res'
    | .ok false => filterLoop q skip limit rest count res

/-- `Filter` from the filter source (bulk mode).  A nil query returns the
slice `data[min(skip,len):min(skip+limit,len)]` unevaluated, with the whole
slice returned directly when `skip == 0` and `limit` is 0 or at least the
length; otherwise the scan loop runs.  Go's non-negative `skip`/`limit`
arguments are modelled as naturals (a negative index would make the slice
expression itself panic, which no claim exercises). -/
def Filter (data : List Value) (query : Query) (skip limit : Nat) :
    List Value × Option Err :=
  if query.isNilQuery then
    if skip = 0 ∧ (limit = 0 ∨ data.length ≤ limit) then (data, none)
    else
      ((data.drop (min skip data.length)).take
        (min (skip + limit) data.length - min skip data.length), none)
  else filterLoop query skip limit data 0 []

/-- The worker loop of `FilterC`: `matched` counts query matches, `sent`
counts emitted items.  A panic while evaluating one item is recovered inside
the loop: it contributes one wrapped error, the item counts as non-matching,
and the loop continues; reaching the limit stops the worker entirely. -/
def filterCLoop (q : Query) (skip limit : Nat) :
    List Value → Nat → Nat → List Value × List Err
  | [], _, _ => ([], [])
  | item :: rest, matched, sent =>
    match eval q item with
    | .error e =>
      let r := filterCLoop q skip limit rest matched sent
      (r.1, ("panic during filter evaluation: " ++ e) :: r.2)
    | .ok true =>
      if matched + 1 ≤ skip then filterCLoop q skip limit rest (matched + 1) sent
      else if 0 < limit ∧ limit ≤ sent then ([], [])
      else
        let r := filterCLoop q skip limit rest (matched + 1) (sent + 1)
        (item :: r.1, r.2)
    | .ok false => filterCLoop q skip limit rest matched sent

/-- `FilterC` from the filter source (streaming mode): the output and error
sequences delivered by the single sequential worker, in delivery order. -/
def FilterC (input : List Value) (q : Query) (skip limit : Nat) :
    List Value × List Err :=
  filterCLoop q skip limit input 0 0

/-- The per-item error conversion of the streaming worker: a fault while
evaluating one item becomes exactly one wrapped error for that item, and a
non-faulting item contributes no error. -/
def streamFaultMsg (q : Query) (i : Value) : Option Err :=
  match eval q i with
  | .error e => some ("panic during filter evaluation: " ++ e)
  | .ok _ => none

/-- `Gt` from operators.go. -/
def Gt (threshold : Value) : Query :=
  .pred fun v => .ok (0 < compareValues v threshold)

/-- `Lt` from operators.go. -/
def Lt (threshold : Value) : Query :=
  .pred fun v => .ok (compareValues v threshold < 0)

/-- `Gte` from operators.go. -/
def Gte (threshold : Value) : Query :=
  .pred fun v => .ok (0 ≤ compareValues v threshold)

/-- `Lte` from operators.go. -/
def Lte (threshold : Value) : Query :=
  .pred fun v => .ok (compareValues v threshold ≤ 0)

/-- The closure body of `And`: short-circuiting conjunction over sub-queries,
with a panic from a sub-evaluation propagating out of the closure. -/
def andLoop : List Query → Value → Except Err Bool
  | [], _ => .ok true
  | p :: rest, v =>
    match eval p v with
    | .error e => .error e
    | .ok false => .ok false
    | .ok true => andLoop rest v

/-- `And` from operators.go: a predicate combining sub-queries with
logical AND. -/
def And (predicates : List Query) : Query := .pred (andLoop predicates)

/-- The closure body of `Or`: short-circuiting disjunction over sub-queries,
with a panic from a sub-evaluation propagating out of the closure. -/
def orLoop : List Query → Value → Except Err Bool
  | [], _ => .ok false
  | q :: rest, v =>
    match eval q v with
    | .error e => .error e
    | .ok true => .ok true
    | .ok false => orLoop rest v

/-- `Or` from operators.go: a predicate combining sub-queries with
logical OR. -/
def Or (vals : List Query) : Query := .pred (orLoop vals)

/-- The same-kind fast paths of `compareValues`: both operands are Go `int`,
both `float64`, both `string`, or both `time.Time`. -/
def sameKindFastPath : Value → Value → Bool
  | .VInt _, .VInt _ => true
  | .VFloat64 _, .VFloat64 _ => true
  | .VString _, .VString _ => true
  | .VTime _, .VTime _ => true
  | _, _ => false

/-- A concrete user predicate that panics (with payload rendered "boom") on
the record `VInt 2` and matches every other record; used to exercise the
fault-isolation behavior of the two filter modes. -/
def panicOnTwo : Query :=
  .pred fun v =>
    match v with
    | .VInt 2 => .error "boom"
    | _ => .ok true

lemma isVNil_eq_false_of_ne {a : Value} (h : a ≠ .VNil) : isVNil a = false := by
  cases a <;> simp_all [isVNil]

lemma lookupEntry_append_of_missing {entries : List (String × Value)} {f : String}
    (h : lookupEntry entries f = none) (v : Value) :
    lookupEntry (entries ++ [(f, v)]) f = some v := by
  induction entries with
  | nil => simp [lookupEntry]
  | cons e rest ih =>
    obtain ⟨k, w⟩ := e
    rw [lookupEntry] at h
    rw [List.cons_append, lookupEntry]
    by_cases hk : k = f
    · rw [if_pos hk] at h
      cases h
    · rw [if_neg hk] at h ⊢
      exact ih h

/-- C1 (corrected): with a nil query, `Filter` returns the input slice
`data[min(skip,len):min(skip+limit,len)]` without evaluating any record;
this is the whole input exactly when `skip = 0` and `limit = 0` or
`limit ≥ len`, and `limit = 0` is not treated as unbounded here, so a
positive `skip` with `limit = 0` yields the empty result. -/
theorem filter_nil_query_paginates (data : List Value) (skip limit : Nat) :
    Filter data .qnil skip limit =
      ((if limit = 0 ∧ skip = 0 then data else (data.take (skip + limit)).drop skip),
       none) := by
  simp only [Filter, Query.isNilQuery, if_true]
  split_ifs with h1 h2 h2
  · rfl
  · obtain ⟨hs, hl⟩ := h1
    subst hs
    have hll : data.length ≤ limit := by
      rcases hl with h | h
      · exact absurd ⟨h, rfl⟩ h2
      · exact h
    simp [List.take_of_length_le, hll]
  · exact absurd ⟨h2.2, Or.inl h2.1⟩ h1
  · have hrhs : (data.take (skip + limit)).drop skip =
        (data.drop skip).take limit := by
      rw [List.drop_take, Nat.add_sub_cancel_left]
    rw [hrhs]
    rcases le_or_lt data.length skip with hle | hlt
    · have h1 : data.drop skip = [] := List.drop_of_length_le hle
      have h2 : min skip data.length = data.length := Nat.min_eq_right hle
      have h3 : data.drop data.length = [] := List.drop_of_length_le le_rfl
      simp [h1, h2, h3]
    · have hm : min skip data.length = skip := Nat.min_eq_left (le_of_lt hlt)
      rw [hm]
      simp only [Prod.mk.injEq, and_true]
      rw [List.take_eq_take]
      simp only [List.length_drop]
      omega

/-- C1 counterexample: with a nil query, `skip = 1` and `limit = 0`, `Filter`
returns the empty result rather than all records from index 1 onward, so
`limit = 0` is not unbounded on the nil-query path. -/
theorem filter_nil_query_limit_zero_empty :
    Filter [.VInt 1, .VInt 2, .VInt 3] .qnil 1 0 = ([], none) ∧
    ([] : List Value) ≠ [.VInt 2, .VInt 3] :=
  ⟨rfl, by simp⟩

/-- C2 (corrected): `getField` returns null (`nil`) both when the record is
null and when the field does not exist — the same value as an explicit null
field — so callers cannot distinguish "field holds null" from "field does
not exist"; the accessor returns a value rather than raising a fault. -/
theorem getField_absent_is_null (f : String) (nilp : Bool)
    (entries fields : List (String × Value))
    (hmissing : lookupEntry entries f = none)
    (hmissingS : lookupEntry fields f = none) :
    getField .VNil f = .VNil ∧
    getField (.VPtr none) f = .VNil ∧
    getField (.VMap nilp entries) f = .VNil ∧
    getField (.VMap nilp (entries ++ [(f, .VNil)])) f =
      getField (.VMap nilp entries) f ∧
    getField (.VStructV fields) f = .VNil ∧
    getField (.VStructV (fields ++ [(f, .VNil)])) f =
      getField (.VStructV fields) f := by
  refine ⟨rfl, rfl, ?_, ?_, ?_, ?_⟩
  · simp [getField, fieldOnShape, hmissing]
  · simp [getField, fieldOnShape, hmissing, lookupEntry_append_of_missing hmissing]
  · simp [getField, fieldOnShape, hmissingS]
  · simp [getField, fieldOnShape, hmissingS,
      lookupEntry_append_of_missing hmissingS]

theorem getField_absent_is_null_witness :
    getField .VNil "a" = .VNil ∧
    getField (.VPtr none) "a" = .VNil ∧
    getField (.VMap false []) "a" = .VNil ∧
    getField (.VMap false ([] ++ [("a", .VNil)])) "a" =
      getField (.VMap false []) "a" ∧
    getField (.VStructV [("b", .VInt 1)]) "a" = .VNil ∧
    getField (.VStructV ([("b", .VInt 1)] ++ [("a", .VNil)])) "a" =
      getField (.VStructV [("b", .VInt 1)]) "a" :=
  getField_absent_is_null "a" false [] [("b", .VInt 1)] rfl rfl

/-- C2 counterexample: a record whose field `"a"` holds an explicit null and
a record lacking the field `"a"` give the same accessor result, the plain
null value — there is no distinguished absent result. -/
theorem getField_no_distinguished_absent :
    getField (.VMap false [("a", .VNil)]) "a" = getField (.VMap false []) "a" ∧
    getField (.VMap false [("a", .VNil)]) "a" = .VNil :=
  ⟨rfl, rfl⟩

/-- C8: any two values of integer or floating kinds that widen to the same
number in the numeric domain are equal under `isEqual`, because both are
normalized by `toNumber` before comparison. -/
theorem isEqual_numeric_normalization (a b : Value)
    (ha : (toNumber a).2 = true) (hb : (toNumber b).2 = true)
    (hv : (toNumber a).1 = (toNumber b).1) : isEqual a b = true := by
  have hA : isVNil a = false := by cases a <;> simp_all [toNumber, isVNil]
  have hB : isVNil b = false := by cases b <;> simp_all [toNumber, isVNil]
  rcases hta : toNumber a with ⟨x, fa⟩
  rcases htb : toNumber b with ⟨y, fb⟩
  rw [hta] at ha hv
  rw [htb] at hb hv
  simp only at ha hb hv
  subst ha; subst hb; subst hv
  simp [isEqual, hA, hB, hta, htb]

theorem isEqual_numeric_normalization_witness :
    ((toNumber (Value.VInt 3)).2 = true ∧ (toNumber (Value.VFloat64 3)).2 = true ∧
     (toNumber (Value.VInt 3)).1 = (toNumber (Value.VFloat64 3)).1 ∧
     isEqual (Value.VInt 3) (Value.VFloat64 3) = true) ∧
    ((toNumber (Value.VInt8 3)).2 = true ∧ (toNumber (Value.VUInt64 3)).2 = true ∧
     (toNumber (Value.VInt8 3)).1 = (toNumber (Value.VUInt64 3)).1 ∧
     isEqual (Value.VInt8 3) (Value.VUInt64 3) = true) :=
  ⟨⟨rfl, rfl, by decide, isEqual_numeric_normalization _ _ rfl rfl (by decide)⟩,
   ⟨rfl, rfl, by decide, isEqual_numeric_normalization _ _ rfl rfl (by decide)⟩⟩

/-- C9: evaluating the nil query as a literal tests `isNil`, and `isNil` is
true exactly for null and for the nil-like pointer, slice, map and function
values. -/
theorem eval_nil_query_isNullish (v : Value) :
    eval .qnil v = .ok (isNil v) ∧
    (isNil v = true ↔
      v = .VNil ∨ v = .VPtr none ∨ (∃ xs, v = .VSlice true xs) ∨
      (∃ es, v = .VMap true es) ∨ v = .VFuncV true) := by
  refine ⟨rfl, ?_⟩
  cases v <;> try simp [isNil]
  case VPtr p => cases p <;> simp [isNil]

/-- C3: when neither value is null, no same-kind fast path applies and at
least one operand does not normalize to the numeric domain, `compareValues`
falls back to -1 (less); hence `Lt` holds and `Gt` fails on such a pair. -/
theorem incomparable_order_fallback_less (a b : Value)
    (ha : a ≠ .VNil) (hb : b ≠ .VNil)
    (hfast : sameKindFastPath a b = false)
    (hnum : (toNumber a).2 = false ∨ (toNumber b).2 = false) :
    compareValues a b = -1 ∧
    eval (Lt b) a = .ok true ∧ eval (Gt b) a = .ok false := by
  have hA := isVNil_eq_false_of_ne ha
  have hB := isVNil_eq_false_of_ne hb
  have h1 : compareValues a b = -1 := by
    cases a <;> cases b <;>
      simp_all [compareValues, sameKindFastPath, toNumber, isVNil]
  refine ⟨h1, ?_, ?_⟩ <;> simp [eval, Lt, Gt, h1]

theorem incomparable_order_fallback_less_witness :
    Value.VString "x" ≠ Value.VNil ∧ Value.VBool true ≠ Value.VNil ∧
    sameKindFastPath (.VString "x") (.VBool true) = false ∧
    ((toNumber (Value.VString "x")).2 = false ∨
      (toNumber (Value.VBool true)).2 = false) ∧
    (compareValues (.VString "x") (.VBool true) = -1 ∧
     eval (Lt (.VBool true)) (.VString "x") = .ok true ∧
     eval (Gt (.VBool true)) (.VString "x") = .ok false) :=
  ⟨by simp, by simp, rfl, Or.inl rfl,
   incomparable_order_fallback_less _ _ (by simp) (by simp) rfl (Or.inl rfl)⟩

/-- C7: a map query is an implicit AND over its entries, each evaluated
against the whole current value for the empty-string key and against the
named field otherwise: the empty map query matches every value, the first
entry that evaluates false makes the whole query false independently of the
remaining entries, and (absent faults) the map query is true exactly when
every entry is true. -/
theorem evalMapQuery_implicit_and (v : Value) (m pre rest : List (String × Query))
    (k : String) (c : Query)
    (hm : ∀ e ∈ m, ∃ b, eval e.2 (resolveField v e.1) = .ok b)
    (hpre : ∀ e ∈ pre, eval e.2 (resolveField v e.1) = .ok true)
    (hc : eval c (resolveField v k) = .ok false) :
    eval (.qmap []) v = .ok true ∧
    eval (.qmap (pre ++ (k, c) :: rest)) v = .ok false ∧
    (eval (.qmap m) v = .ok true ↔
      ∀ e ∈ m, eval e.2 (resolveField v e.1) = .ok true) := by
  refine ⟨rfl, ?_, ?_⟩
  · induction pre with
    | nil =>
      show evalMapQuery v ((k, c) :: rest) = .ok false
      rw [evalMapQuery, hc]
    | cons e pre' ih =>
      obtain ⟨k', c'⟩ := e
      have h1 : eval c' (resolveField v k') = .ok true := hpre (k', c') (by simp)
      have ih' := ih (fun e he => hpre e (List.mem_cons_of_mem _ he))
      show evalMapQuery v ((k', c') :: (pre' ++ (k, c) :: rest)) = .ok false
      rw [evalMapQuery, h1]
      exact ih'
  · induction m with
    | nil =>
      simp
      rfl
    | cons e m' ih =>
      obtain ⟨k', c'⟩ := e
      obtain ⟨b, hb⟩ := hm (k', c') (by simp)
      have ih' := ih (fun e he => hm e (List.mem_cons_of_mem _ he))
      cases b
      · constructor
        · intro hfalse
          have : evalMapQuery v ((k', c') :: m') = .ok false := by
            rw [evalMapQuery, hb]
          rw [show eval (.qmap ((k', c') :: m')) v =
            evalMapQuery v ((k', c') :: m') from rfl, this] at hfalse
          cases hfalse
        · intro hall
          have := hall (k', c') (by simp)
          rw [hb] at this
          cases this
      · have hred : eval (.qmap ((k', c') :: m')) v = eval (.qmap m') v := by
          show evalMapQuery v ((k', c') :: m') = evalMapQuery v m'
          rw [evalMapQuery, hb]
        rw [hred]
        constructor
        · intro h e he
          rcases List.mem_cons.mp he with rfl | he'
          · exact hb
          · exact (ih'.mp h) e he'
        · intro hall
          exact ih'.mpr (fun e he => hall e (List.mem_cons_of_mem _ he))

theorem evalMapQuery_implicit_and_witness :
    (∀ e ∈ [("a", Query.lit (.VInt 1))],
      ∃ b, eval e.2 (resolveField (.VMap false [("a", .VInt 1)]) e.1) = .ok b) ∧
    (∀ e ∈ [("a", Query.lit (.VInt 1))],
      eval e.2 (resolveField (.VMap false [("a", .VInt 1)]) e.1) = .ok true) ∧
    eval (Query.lit (.VInt 5)) (resolveField (.VMap false [("a", .VInt 1)]) "b") =
      .ok false ∧
    (eval (.qmap []) (.VMap false [("a", .VInt 1)]) = .ok true ∧
     eval (.qmap ([("a", Query.lit (.VInt 1))] ++ ("b", Query.lit (.VInt 5)) :: []))
       (.VMap false [("a", .VInt 1)]) = .ok false ∧
     (eval (.qmap [("a", Query.lit (.VInt 1))]) (.VMap false [("a", .VInt 1)]) =
        .ok true ↔
      ∀ e ∈ [("a", Query.lit (.VInt 1))],
        eval e.2 (resolveField (.VMap false [("a", .VInt 1)]) e.1) = .ok true)) := by
  have h1 : ∀ e ∈ [("a", Query.lit (.VInt 1))],
      eval e.2 (resolveField (.VMap false [("a", .VInt 1)]) e.1) = .ok true := by
    intro e he
    simp only [List.mem_singleton] at he
    subst he
    rfl
  exact ⟨fun e he => ⟨true, h1 e he⟩, h1, rfl,
    evalMapQuery_implicit_and _ _ _ _ _ _ (fun e he => ⟨true, h1 e he⟩) h1 rfl⟩

lemma filterLoop_no_fault_unlimited (q : Query) (skip : Nat) :
    ∀ (data : List Value) (count : Nat) (res : List Value),
      (∀ r ∈ data, ∃ b, eval q r = .ok b) →
      filterLoop q skip 0 data count res =
        (res ++ (data.filter (matchesQ q)).drop (skip - count), none) := by
  intro data
  induction data with
  | nil =>
    intro count res h
    simp [filterLoop]
  | cons r rest ih =>
    intro count res h
    obtain ⟨b, hb⟩ := h r (by simp)
    have hrest : ∀ x ∈ rest, ∃ b, eval q x = .ok b :=
      fun x hx => h x (List.mem_cons_of_mem _ hx)
    rw [filterLoop, hb]
    cases b
    · have hm : matchesQ q r = false := by simp [matchesQ, hb]
      show filterLoop q skip 0 rest count res = _
      rw [ih count res hrest, List.filter_cons_of_neg (by simp [hm])]
    · have hm : matchesQ q r = true := by simp [matchesQ, hb]
      rw [List.filter_cons_of_pos hm]
      by_cases hcount : count < skip
      · rw [if_pos hcount, ih (count + 1) res hrest]
        have hsk : skip - count = (skip - (count + 1)) + 1 := by omega
        rw [hsk, List.drop_succ_cons]
      · rw [if_neg hcount, if_neg (by simp)]
        have hskip0 : skip - count = 0 := by omega
        rw [ih count (res ++ [r]) hrest, hskip0, List.drop_zero, List.drop_zero,
          List.append_assoc]
        rfl

lemma filterLoop_no_fault_limited (q : Query) (skip limit : Nat)
    (hlp : 0 < limit) :
    ∀ (data : List Value) (count : Nat) (res : List Value),
      (∀ r ∈ data, ∃ b, eval q r = .ok b) →
      res.length < limit →
      filterLoop q skip limit data count res =
        (res ++ ((data.filter (matchesQ q)).drop (skip - count)).take
          (limit - res.length), none) := by
  intro data
  induction data with
  | nil =>
    intro count res h hl
    simp [filterLoop]
  | cons r rest ih =>
    intro count res h hl
    obtain ⟨b, hb⟩ := h r (by simp)
    have hrest : ∀ x ∈ rest, ∃ b, eval q x = .ok b :=
      fun x hx => h x (List.mem_cons_of_mem _ hx)
    rw [filterLoop, hb]
    cases b
    · have hm : matchesQ q r = false := by simp [matchesQ, hb]
      show filterLoop q skip limit rest count res = _
      rw [ih count res hrest hl, List.filter_cons_of_neg (by simp [hm])]
    · have hm : matchesQ q r = true := by simp [matchesQ, hb]
      rw [List.filter_cons_of_pos hm]
      by_cases hcount : count < skip
      · rw [if_pos hcount, ih (count + 1) res hrest hl]
        have hsk : skip - count = (skip - (count + 1)) + 1 := by omega
        rw [hsk, List.drop_succ_cons]
      · rw [if_neg hcount]
        have hskip0 : skip - count = 0 := by omega
        by_cases hstop : 0 < limit ∧ limit ≤ (res ++ [r]).length
        · rw [if_pos hstop]
          obtain ⟨hlp2, hle⟩ := hstop
          simp only [List.length_append, List.length_cons, List.length_nil] at hle
          have hlim1 : limit - res.length = 1 := by omega
          rw [hskip0, List.drop_zero, hlim1, List.take_succ_cons, List.take_zero]
        · rw [if_neg hstop]
          have hle' : (res ++ [r]).length < limit := by
            simp only [List.length_append, List.length_cons, List.length_nil]
            by_cases hc2 : limit ≤ res.length + 1
            · exact absurd ⟨hlp, by simpa⟩ hstop
            · omega
          rw [ih count (res ++ [r]) hrest hle', hskip0, List.drop_zero,
            List.drop_zero]
          have htk : limit - res.length = (limit - (res ++ [r]).length) + 1 := by
            simp only [List.length_append, List.length_cons, List.length_nil] at hle' ⊢
            omega
          rw [htk, List.take_succ_cons, List.append_assoc]
          rfl

/-- C6: for a non-nil query, bulk `Filter` scans in order, skips the first
`skip` matches and returns subsequent matches up to `limit` (0 meaning
unbounded), stopping once the limit is reached; with five matching records
and skip 1, limit 2, exactly the 2nd and 3rd matches are returned. -/
theorem filter_scan_pagination (q : Query) (data : List Value) (skip limit : Nat)
    (hq : q.isNilQuery = false)
    (h : ∀ r ∈ data, ∃ b, eval q r = .ok b) :
    Filter data q skip limit =
      ((if limit = 0 then (data.filter (matchesQ q)).drop skip
        else ((data.filter (matchesQ q)).drop skip).take limit), none) ∧
    Filter [.VInt 1, .VInt 2, .VInt 3, .VInt 4, .VInt 5] (Gt (.VInt 0)) 1 2 =
      ([.VInt 2, .VInt 3], none) := by
  refine ⟨?_, rfl⟩
  rw [Filter, if_neg (by simp [hq])]
  rcases Nat.eq_zero_or_pos limit with hl0 | hlp
  · subst hl0
    rw [filterLoop_no_fault_unlimited q skip data 0 [] h]
    simp
  · rw [filterLoop_no_fault_limited q skip limit hlp data 0 [] h
      (by simpa using hlp)]
    rw [if_neg (by omega)]
    simp

theorem filter_scan_pagination_witness :
    (Gt (Value.VInt 0)).isNilQuery = false ∧
    (∀ r ∈ [Value.VInt 1, .VInt 2, .VInt 3, .VInt 4, .VInt 5],
      ∃ b, eval (Gt (.VInt 0)) r = .ok b) ∧
    (Filter [Value.VInt 1, .VInt 2, .VInt 3, .VInt 4, .VInt 5] (Gt (.VInt 0)) 1 2 =
      ((if 2 = 0 then
          (([Value.VInt 1, .VInt 2, .VInt 3, .VInt 4, .VInt 5].filter
            (matchesQ (Gt (.VInt 0))))).drop 1
        else ((([Value.VInt 1, .VInt 2, .VInt 3, .VInt 4,
            .VInt 5].filter (matchesQ (Gt (.VInt 0))))).drop 1).take 2), none) ∧
     Filter [Value.VInt 1, .VInt 2, .VInt 3, .VInt 4, .VInt 5] (Gt (.VInt 0)) 1 2 =
      ([.VInt 2, .VInt 3], none)) :=
  ⟨rfl, fun _ _ => ⟨_, rfl⟩,
   filter_scan_pagination (Gt (.VInt 0))
     [Value.VInt 1, .VInt 2, .VInt 3, .VInt 4, .VInt 5] 1 2 rfl
     (fun _ _ => ⟨_, rfl⟩)⟩

lemma filterLoop_fault_stops (q : Query) (skip limit : Nat) (x : Value)
    (e : Err) (post : List Value) (hx : eval q x = .error e) :
    ∀ (pre : List Value) (count : Nat) (res : List Value),
      (∀ r ∈ pre, ∃ b, eval q r = .ok b) →
      (limit = 0 ∨ res.length + (pre.filter (matchesQ q)).length <
        limit + min (pre.filter (matchesQ q)).length (skip - count)) →
      filterLoop q skip limit (pre ++ x :: post) count res =
        ((filterLoop q skip limit pre count res).1,
         some ("panic during filtering: " ++ e)) := by
  intro pre
  induction pre with
  | nil =>
    intro count res h hl
    simp only [List.nil_append]
    conv_lhs => rw [filterLoop]
    rw [hx]
    rfl
  | cons r pre' ih =>
    intro count res h hl
    obtain ⟨b, hb⟩ := h r (by simp)
    have hrest : ∀ y ∈ pre', ∃ b, eval q y = .ok b :=
      fun y hy => h y (List.mem_cons_of_mem _ hy)
    rw [List.cons_append, filterLoop, filterLoop, hb]
    cases b
    · have hm : matchesQ q r = false := by simp [matchesQ, hb]
      rw [List.filter_cons_of_neg (by simp [hm])] at hl
      exact ih count res hrest hl
    · have hm : matchesQ q r = true := by simp [matchesQ, hb]
      simp only [List.filter_cons_of_pos hm, List.length_cons] at hl
      by_cases hcount : count < skip
      · rw [if_pos hcount, if_pos hcount]
        refine ih (count + 1) res hrest ?_
        rcases hl with h0 | hlt
        · exact Or.inl h0
        · right
          omega
      · rw [if_neg hcount, if_neg hcount]
        have hskip0 : skip - count = 0 := by omega
        rw [hskip0] at hl
        have hstop : ¬(0 < limit ∧ limit ≤ (res ++ [r]).length) := by
          rintro ⟨hlp, hle⟩
          simp only [List.length_append, List.length_cons, List.length_nil] at hle
          rcases hl with h0 | hlt
          · omega
          · omega
        simp only [hstop, if_false]
        refine ih count (res ++ [r]) hrest ?_
        rcases hl with h0 | hlt
        · exact Or.inl h0
        · right
          simp only [List.length_append, List.length_cons, List.length_nil]
          omega

/-- C4: if some record faults during a bulk `Filter` scan, scanning stops at
that record (the result does not depend on the records after it) and the
matches accumulated before the fault are returned together with a non-nil
error; the hypothesis on `limit` says the limit was not already reached
before the faulting record, since the scan would then have ended early
without evaluating it. -/
theorem filter_bulk_fault_aborts (q : Query) (pre post : List Value) (x : Value)
    (e : Err) (skip limit : Nat)
    (hpre : ∀ r ∈ pre, ∃ b, eval q r = .ok b)
    (hx : eval q x = .error e)
    (hlim : limit = 0 ∨ (pre.filter (matchesQ q)).length < skip + limit) :
    Filter (pre ++ x :: post) q skip limit =
      ((Filter pre q skip limit).1, some ("panic during filtering: " ++ e)) := by
  have hq : q.isNilQuery = false := by
    cases q <;> first
      | rfl
      | (rw [eval] at hx
         cases hx)
  rw [Filter, if_neg (by simp [hq]), Filter, if_neg (by simp [hq])]
  refine filterLoop_fault_stops q skip limit x e post hx pre 0 [] hpre ?_
  rcases hlim with h0 | hlt
  · exact Or.inl h0
  · rcases Nat.eq_zero_or_pos limit with hz | hp
    · exact Or.inl hz
    · right
      simp only [List.length_nil, Nat.zero_add, Nat.sub_zero]
      omega

theorem filter_bulk_fault_aborts_witness :
    (∀ r ∈ [Value.VInt 1], ∃ b, eval panicOnTwo r = .ok b) ∧
    eval panicOnTwo (.VInt 2) = .error "boom" ∧
    ((0 : Nat) = 0 ∨
      (List.filter (matchesQ panicOnTwo) [Value.VInt 1]).length < 0 + 0) ∧
    Filter ([Value.VInt 1] ++ .VInt 2 :: [.VInt 3]) panicOnTwo 0 0 =
      ((Filter [Value.VInt 1] panicOnTwo 0 0).1,
       some ("panic during filtering: " ++ "boom")) := by
  have h1 : ∀ r ∈ [Value.VInt 1], ∃ b, eval panicOnTwo r = .ok b := by
    intro r hr
    simp only [List.mem_singleton] at hr
    subst hr
    exact ⟨true, rfl⟩
  exact ⟨h1, rfl, Or.inl rfl,
    filter_bulk_fault_aborts panicOnTwo [Value.VInt 1] [.VInt 3] (.VInt 2)
      "boom" 0 0 h1 rfl (Or.inl rfl)⟩

lemma filterCLoop_sublist (q : Query) (skip limit : Nat) :
    ∀ (input : List Value) (matched sent : Nat),
      ((filterCLoop q skip limit input matched sent).1).Sublist input := by
  intro input
  induction input with
  | nil =>
    intro m s
    simp [filterCLoop]
  | cons r rest ih =>
    intro m s
    rw [filterCLoop]
    rcases heval : eval q r with e | b
    · exact List.Sublist.cons r (ih m s)
    · cases b
      · exact List.Sublist.cons r (ih m s)
      · split_ifs with h1 h2
        · exact List.Sublist.cons r (ih (m + 1) s)
        · exact List.nil_sublist _
        · exact List.Sublist.cons₂ r (ih (m + 1) (s + 1))

lemma filterCLoop_unlimited_errors (q : Query) (skip : Nat) :
    ∀ (input : List Value) (matched sent : Nat),
      (filterCLoop q skip 0 input matched sent).2 =
        input.filterMap (streamFaultMsg q) := by
  intro input
  induction input with
  | nil =>
    intro m s
    simp [filterCLoop]
  | cons r rest ih =>
    intro m s
    rw [filterCLoop, List.filterMap_cons]
    rcases heval : eval q r with e | b
    · simp only [streamFaultMsg, heval]
      rw [ih m s]
    · simp only [streamFaultMsg, heval]
      cases b
      · exact ih m s
      · by_cases h1 : m + 1 ≤ skip
        · rw [if_pos h1]
          exact ih (m + 1) s
        · rw [if_neg h1, if_neg (by simp)]
          exact ih (m + 1) (s + 1)

/-- C5: the streaming filter isolates faults per item: its output is an
order-preserving subsequence of the input; with no limit cutoff, the error
sequence carries exactly one wrapped error per faulting item, in input
order, and non-faulting items contribute none (so evaluation continues
after a fault); concretely, when only item 2 of three faults, the output
yields items 1 and 3 and the error sequence exactly one error. -/
theorem filterC_per_item_isolation (q : Query) (skip limit : Nat)
    (input : List Value) :
    ((FilterC input q skip limit).1).Sublist input ∧
    (FilterC input q skip 0).2 = input.filterMap (streamFaultMsg q) ∧
    FilterC [.VInt 1, .VInt 2, .VInt 3] panicOnTwo 0 0 =
      ([.VInt 1, .VInt 3], ["panic during filter evaluation: " ++ "boom"]) :=
  ⟨filterCLoop_sublist q skip limit input 0 0,
   filterCLoop_unlimited_errors q skip input 0 0, rfl⟩

/-- C10: the empty conjunction `And()` evaluates true and the empty
disjunction `Or()` evaluates false on every value, and each is a left
identity for its combinator. -/
theorem empty_and_or_identities (v : Value) (qs : List Query) :
    eval (And []) v = .ok true ∧ eval (Or []) v = .ok false ∧
    eval (And (And [] :: qs)) v = eval (And qs) v ∧
    eval (Or (Or [] :: qs)) v = eval (Or qs) v :=
  ⟨rfl, rfl, rfl, rfl⟩

end GoFq
